import Mathlib

/-!
# clang-format entry point (`src/ClangFormat.cpp`)

A shallow embedding of `clang::format::format` and of the pieces it is built
from.  The three external algorithms (`getStyle`, `sortIncludes`, `reformat`)
and the library operations on replacement sets are fields of a record of
collaborators; `format` and `createFile` are translated statement by
statement.  Every call to a collaborator is logged, in order, in
`Outcome.calls`, and every line written to `llvm::errs()` is logged in
`Outcome.errs`.  The file system `createFile` writes to and reads back from is
explicit state.

`std::string` / `StringRef` values are Lean strings; one `Char` stands for one
byte of the buffer.
-/

set_option autoImplicit false

namespace ClangFormat

/-! ## Data model -/

/-- A `tooling::Range`: an offset and a length over one buffer. -/
structure Range where
  Offset : Nat
  Length : Nat
  deriving DecidableEq

/-- A `tooling::Replacement` as it is built on line 114 of the source:
file path, offset, length removed, inserted text. -/
structure Replacement where
  FilePath : String
  Offset : Nat
  Length : Nat
  ReplacementText : String
  deriving DecidableEq

/-- The language of a resolved style.  Only the JSON case is inspected by the
entry point (`FormatStyle::isJson`); the declaration itself lives in the
formatting library. -/
inductive LanguageKind where
  | LK_None
  | LK_Cpp
  | LK_Java
  | LK_JavaScript
  | LK_Json
  | LK_Proto
  deriving DecidableEq

/-- The values of `FormatStyle::QualifierAlignmentStyle` (None/Left/Right/Custom
in the words of the specification; the library calls the first one `Leave`). -/
inductive QualifierAlignmentStyle where
  | QAS_Leave
  | QAS_Left
  | QAS_Right
  | QAS_Custom
  deriving DecidableEq

/-- The values of `FormatStyle::SortIncludesOptions`. -/
inductive SortIncludesOptions where
  | SI_Never
  | SI_CaseSensitive
  | SI_CaseInsensitive
  deriving DecidableEq

/-- The fields of `FormatStyle` that the entry point reads or writes; all the
further knobs, which only the external engines consult, are kept as one
uninterpreted value. -/
structure FormatStyle where
  Language : LanguageKind
  QualifierAlignment : QualifierAlignmentStyle
  QualifierOrder : List String
  SortIncludes : SortIncludesOptions
  DisableFormat : Bool
  Knobs : String
  deriving DecidableEq

/-- The test `FormatStyle::isJson`. -/
def FormatStyle.isJson (S : FormatStyle) : Bool :=
  decide (S.Language = LanguageKind.LK_Json)

/-- The completion flag filled in by `reformat`. -/
structure FormattingAttemptStatus where
  FormatComplete : Bool
  Line : Nat
  deriving DecidableEq

/-- The state of the file system as far as `createFile` touches it: the
directories that exist and the regular files with their bytes, by path. -/
structure FileSystem where
  Directories : List String
  Files : List (String × String)
  deriving DecidableEq

/-- The three process-wide variables of lines 60-63. -/
structure Globals where
  Style : String
  FallbackStyle : String
  AssumeFileName : String
  deriving DecidableEq

/-- The initial values of the process-wide variables; the constant
`DefaultFallbackStyle` is declared by the formatting library and is taken as a
parameter. -/
def Globals.initial (DefaultFallbackStyle : String) : Globals :=
  { Style := DefaultFallbackStyle
    FallbackStyle := DefaultFallbackStyle
    AssumeFileName := "<stdin>" }

/-! ## String helpers used by the qualifier code (lines 87-106) -/

/-- The byte-wise `toLower` behind `StringRef::lower`: only `A`..`Z` change. -/
def toLower (c : Char) : Char :=
  if 65 ≤ c.toNat ∧ c.toNat ≤ 90 then Char.ofNat (c.toNat + 32) else c

/-- The method `StringRef::lower`. -/
def lower (s : String) : String :=
  String.mk (s.data.map toLower)

/-- Test whether `needle` is an initial segment of `hay`. -/
def startsWith : List Char → List Char → Bool
  | _, [] => true
  | [], _ :: _ => false
  | h :: hay, n :: needle => decide (h = n) && startsWith hay needle

/-- Substring search over character lists. -/
def containsList : List Char → List Char → Bool
  | [], needle => startsWith [] needle
  | h :: hay, needle => startsWith (h :: hay) needle || containsList hay needle

/-- The method `StringRef::contains`: case-sensitive substring test. -/
def contains (s needle : String) : Bool :=
  containsList s.data needle.data

/-- Close the token read so far; an empty token is dropped (`KeepEmpty=false`). -/
def pushToken (tok : List Char) (rest : List String) : List String :=
  if tok = [] then rest else String.mk tok :: rest

/-- The loop of `StringRef::split` for the one-byte separator `" "`,
`MaxSplit = -1`, `KeepEmpty = false`: `tok` is the token read so far. -/
def splitLoop : List Char → List Char → List String
  | tok, [] => pushToken tok []
  | tok, c :: cs =>
    if c = ' ' then pushToken tok (splitLoop [] cs) else splitLoop (tok ++ [c]) cs

/-- The call `QualifierAlignmentOrder.split(Qualifiers, " ", -1, false)`. -/
def split (s : String) : List String :=
  splitLoop [] s.data

/-- Comparison ignoring letter case (`StringRef::equals_insensitive`): the same
length and, position by position, the same byte after lowercasing. -/
def equalsInsensitive : List Char → List Char → Bool
  | [], [] => true
  | a :: as, b :: bs => decide (toLower a = toLower b) && equalsInsensitive as bs
  | _, _ => false

/-- Tokens of a string when every ASCII whitespace byte separates (space, tab,
newline, vertical tab, form feed, carriage return), empty tokens dropped: the
reading of "whitespace-separated" in the specification. -/
def splitWhitespaceLoop : List Char → List Char → List String
  | tok, [] => pushToken tok []
  | tok, c :: cs =>
    if c = ' ' ∨ (9 ≤ c.toNat ∧ c.toNat ≤ 13) then pushToken tok (splitWhitespaceLoop [] cs)
    else splitWhitespaceLoop (tok ++ [c]) cs

/-- Whitespace tokenisation of a string, following the specification. -/
def splitWhitespace (s : String) : List String :=
  splitWhitespaceLoop [] s.data

/-- Tokens of a string between space bytes, empty tokens dropped, written with
the library function `List.splitOn`. -/
def spaceTokens (s : String) : List String :=
  ((s.data.splitOn ' ').filter (fun t => decide (t ≠ []))).map String.mk

/-! ## Qualifier alignment (lines 87-106) -/

/-- The `StringSwitch` of lines 89-94 on the lowercased request. -/
def switchQualifierAlignment (QualifierAlignmentOrder : String)
    (Default : QualifierAlignmentStyle) : QualifierAlignmentStyle :=
  if lower QualifierAlignmentOrder = "right" then QualifierAlignmentStyle.QAS_Right
  else if lower QualifierAlignmentOrder = "left" then QualifierAlignmentStyle.QAS_Left
  else Default

/-- Lines 89-106 with the local `QualifierAlignmentOrder` as a parameter: the
assignment of the switch result, then the three-way `if` on the new alignment. -/
def normalizeQualifiers (QualifierAlignmentOrder : String) (S : FormatStyle) : FormatStyle :=
  let S1 : FormatStyle :=
    { S with QualifierAlignment := switchQualifierAlignment QualifierAlignmentOrder S.QualifierAlignment }
  if S1.QualifierAlignment = QualifierAlignmentStyle.QAS_Left then
    { S1 with QualifierOrder := ["const", "volatile", "type"] }
  else if S1.QualifierAlignment = QualifierAlignmentStyle.QAS_Right then
    { S1 with QualifierOrder := ["type", "const", "volatile"] }
  else if contains QualifierAlignmentOrder "type" then
    { S1 with
      QualifierAlignment := QualifierAlignmentStyle.QAS_Custom
      QualifierOrder := split QualifierAlignmentOrder }
  else S1

/-! ## Collaborators and the call log -/

/-- The library functions `format` calls, over a type `R` of replacement sets.
A mutating method that returns an error (`Replacements::add`) yields the set
after the call together with the error, if any. -/
structure Collaborators (R : Type) where
  /-- The call `getStyle(Style, FileName, FallbackStyle, Code, nullptr, true)`;
  an error carries the text of `toString(takeError())`. -/
  getStyle : String → String → String → String → Except String FormatStyle
  /-- The call `sortIncludes(Style, Code, Ranges, FileName, &Cursor)`: the
  replacement set and the cursor. -/
  sortIncludes : FormatStyle → String → List Range → String → R × Nat
  /-- The method `Replacements::add`. -/
  add : R → Replacement → R × Option String
  /-- The string form of `tooling::applyAllReplacements(Code, Replaces)`. -/
  applyAllReplacements : String → R → Except String String
  /-- The function `tooling::calculateRangesAfterReplacements`. -/
  calculateRangesAfterReplacements : R → List Range → List Range
  /-- The call `reformat(Style, Code, Ranges, FileName, &Status)`. -/
  reformat : FormatStyle → String → List Range → String → R × FormattingAttemptStatus
  /-- The method `Replacements::merge`. -/
  merge : R → R → R
  /-- The working directory reported by the file system after the attempt to
  set it to `/tmp` (line 131; the error code is not looked at). -/
  getCurrentWorkingDirectory : String
  /-- The file system when the call reaches `createFile`. -/
  Disk : FileSystem
  /-- Lines 41-43: `std::ofstream file(path); file << Contents; file.close()`,
  from the file system before to the file system after.  Nothing in the source
  checks whether the stream could be opened. -/
  ofstream : FileSystem → String → String → FileSystem
  /-- Lines 44-46: `Files.getOptionalFileRef(FileName)` and the buffer the
  source manager loads for it: the bytes of the file found under `FileName`,
  or nothing when no file is found. -/
  getOptionalFileRef : FileSystem → String → Option String
  /-- Lines 144-148: the rewriter over the file `createFile` returned (name,
  bytes), `applyAllReplacements(Replaces, Rewrite)` and the write of the edit
  buffer.  Yields the diagnostics handed to the consumer and the text of the
  edit buffer. -/
  rewrite : String → String → R → List String × String

/-- One logged call to a collaborator, with the arguments that are plain data. -/
inductive Call where
  | getStyle (StyleName FileName FallbackStyle Code : String)
  | sortIncludes (Style : FormatStyle) (Code : String) (Ranges : List Range) (FileName : String)
  | add (R : Replacement)
  | applyAllReplacements (Code : String)
  | calculateRangesAfterReplacements (Ranges : List Range)
  | reformat (Style : FormatStyle) (Code : String) (Ranges : List Range) (FileName : String)
  | merge
  | createFile (Path Contents : String)
  | rewrite (FileName : String)
  deriving DecidableEq

/-- What one call of `format` does: the returned string, the lines written to
`llvm::errs()` (each one ends with a newline in the source), and the calls.
When the assertion of line 45 fails the call does not return: `asserted` then
holds the message of the assertion and `result` is empty. -/
structure Outcome where
  result : String
  errs : List String
  calls : List Call
  asserted : Option String := none
  deriving DecidableEq

/-- The path `createFile` writes to (line 40). -/
def createFilePath (WorkingDirectory FileName : String) : String :=
  WorkingDirectory ++ "/" ++ FileName

/-- The function `createFile` (lines 37-47): the source is written, unchecked,
to the working directory joined with the file name; the file manager is then
asked for the file name itself.  Yields the bytes behind the file id that is
returned, or nothing when the assertion `File` of line 45 fails. -/
def createFile {R : Type} (C : Collaborators R) (FileName Source : String) : Option String :=
  let path := createFilePath C.getCurrentWorkingDirectory FileName
  C.getOptionalFileRef (C.ofstream C.Disk path Source) FileName

/-- The line `ClangFormatDiagConsumer::HandleDiagnostic` writes (line 57). -/
def HandleDiagnostic (Info : String) : String :=
  "clang-format error:" ++ Info

/-- The replacement of line 115. -/
def jsonShim (AssumedFileName : String) : Replacement :=
  { FilePath := AssumedFileName, Offset := 0, Length := 0, ReplacementText := "x = " }

/-- Lines 113-118: the JSON insertion.  Yields the set after the block, the
lines written and the calls made. -/
def insertJsonShim {R : Type} (C : Collaborators R) (AssumedFileName : String)
    (S : FormatStyle) (Replaces : R) : R × List String × List Call :=
  if S.isJson && !S.DisableFormat then
    match C.add Replaces (jsonShim AssumedFileName) with
    | (Replaces1, some _) =>
      (Replaces1, ["Bad Json variable insertion"], [Call.add (jsonShim AssumedFileName)])
    | (Replaces1, none) => (Replaces1, [], [Call.add (jsonShim AssumedFileName)])
  else (Replaces, [], [])

/-- Lines 87-107: the style handed to the include sorter and to the engine. -/
def prepareStyle (Resolved : FormatStyle) : FormatStyle :=
  { normalizeQualifiers "" Resolved with SortIncludes := SortIncludesOptions.SI_CaseSensitive }

/-- The function `clang::format::format` (lines 65-150). -/
def format {R : Type} (G : Globals) (C : Collaborators R) (source : String) : Outcome :=
  if source.length = 0 then
    { result := "", errs := [], calls := [] }
  else
    let Ranges : List Range := []
    let AssumedFileName := G.AssumeFileName
    let log1 := [Call.getStyle G.Style AssumedFileName G.FallbackStyle source]
    match C.getStyle G.Style AssumedFileName G.FallbackStyle source with
    | Except.error e => { result := "", errs := [e], calls := log1 }
    | Except.ok Resolved =>
      let Style := prepareStyle Resolved
      let Sorted := C.sortIncludes Style source Ranges AssumedFileName
      let log2 := log1 ++ [Call.sortIncludes Style source Ranges AssumedFileName]
      let Shim := insertJsonShim C AssumedFileName Style Sorted.1
      let Replaces := Shim.1
      let log3 := log2 ++ Shim.2.2 ++ [Call.applyAllReplacements source]
      match C.applyAllReplacements source Replaces with
      | Except.error e => { result := "", errs := Shim.2.1 ++ [e], calls := log3 }
      | Except.ok ChangedCode =>
        let Ranges1 := C.calculateRangesAfterReplacements Replaces Ranges
        let Formatted := C.reformat Style ChangedCode Ranges1 AssumedFileName
        let Merged := C.merge Replaces Formatted.1
        let Path := createFilePath C.getCurrentWorkingDirectory AssumedFileName
        let log4 := log3 ++
          [Call.calculateRangesAfterReplacements Ranges,
           Call.reformat Style ChangedCode Ranges1 AssumedFileName,
           Call.merge,
           Call.createFile Path source]
        match createFile C AssumedFileName source with
        | none =>
          { result := ""
            errs := Shim.2.1
            calls := log4
            asserted := some "File not added to FS?" }
        | some File =>
          let Rewritten := C.rewrite AssumedFileName File Merged
          { result := Rewritten.2
            errs := Shim.2.1 ++ Rewritten.1.map HandleDiagnostic
            calls := log4 ++ [Call.rewrite AssumedFileName] }

/-- The range lists handed to the include sorter, one per logged call. -/
def sorterRanges : List Call → List (List Range)
  | [] => []
  | Call.sortIncludes _ _ Ranges _ :: cs => Ranges :: sorterRanges cs
  | _ :: cs => sorterRanges cs

/-- The range lists handed to the formatting engine, one per logged call. -/
def engineRanges : List Call → List (List Range)
  | [] => []
  | Call.reformat _ _ Ranges _ :: cs => Ranges :: engineRanges cs
  | _ :: cs => engineRanges cs

/-- The collaborators with the engine's completion status rewritten by `f`
and everything else as in `C`. -/
def withStatus {R : Type} (f : FormattingAttemptStatus → FormattingAttemptStatus)
    (C : Collaborators R) : Collaborators R :=
  { C with
    reformat := fun S Code Ranges FileName =>
      ((C.reformat S Code Ranges FileName).1, f (C.reformat S Code Ranges FileName).2) }

/-! ## Replacement sets

The operations on replacement sets belong to the tooling library, whose code
is not in the repository; they are modelled from sections 3, 4.4, 4.7 and 4.9
of the specification. -/

/-- Modelled from the spec: the `ReplacementSet` of section 3 (missing:
`tooling::Replacements`), an offset-ordered collection of replacements. -/
abbrev Replacements : Type := List Replacement

/-- Modelled from the spec: the overlap test behind "no two members
overlapping" (missing: the conflict check of `Replacements::add`).  Two
replacements conflict when their spans share a byte, when one starts strictly
inside the span of the other, or when both target the same offset
(section 8: "two replacements both targeting offset 0"). -/
def conflicts (a b : Replacement) : Bool :=
  decide (a.Offset = b.Offset) ||
    (decide (a.Offset < b.Offset + b.Length) && decide (b.Offset < a.Offset + a.Length))

/-- Modelled from the spec: insertion that keeps the collection offset-ordered
(missing: the ordered container of `tooling::Replacements`). -/
def insertOrdered (r : Replacement) : Replacements → Replacements
  | [] => [r]
  | m :: ms => if r.Offset ≤ m.Offset then r :: m :: ms else m :: insertOrdered r ms

/-- Modelled from the spec: adding a replacement to a set (missing:
`Replacements::add`); "overlap is an error, never silently resolved", and the
set is left as it was. -/
def addReplacement (Replaces : Replacements) (r : Replacement) : Replacements × Option String :=
  if Replaces.any (conflicts r) then (Replaces, some "New replacement conflicts with an existing one")
  else (insertOrdered r Replaces, none)

/-- Modelled from the spec: applying an offset-ordered set to the text that
starts at offset `pos` of the buffer (missing: the string form of
`tooling::applyAllReplacements`).  A member that starts before `pos`
(overlap) or reaches past the end of the buffer makes the application fail
(`ReplacementApplicationError`, section 7). -/
def applyFrom (pos : Nat) (code : List Char) : Replacements → Option (List Char)
  | [] => some code
  | r :: rs =>
    if pos ≤ r.Offset ∧ r.Offset - pos + r.Length ≤ code.length then
      (applyFrom (r.Offset + r.Length) (code.drop (r.Offset - pos + r.Length)) rs).map
        (fun t => code.take (r.Offset - pos) ++ (r.ReplacementText.data ++ t))
    else none

/-- Modelled from the spec: the stage "apply R1" of section 2 (missing: the
string form of `tooling::applyAllReplacements`). -/
def applyAll (Code : String) (Replaces : Replacements) : Except String String :=
  match applyFrom 0 Code.data Replaces with
  | some t => Except.ok (String.mk t)
  | none => Except.error "Failed to apply a replacement"

/-- One step of an edit script over a buffer: keep a byte, delete a byte,
insert a byte. -/
inductive Edit where
  | keep
  | del
  | ins (c : Char)
  deriving DecidableEq

/-- Modelled from the spec: a replacement set, read from offset `pos` on, as an
edit script ("edit-script composition", section 4.7).  The bytes after the
last replacement are kept implicitly. -/
def toScript (pos : Nat) : Replacements → List Edit
  | [] => []
  | r :: rs =>
    List.replicate (r.Offset - pos) Edit.keep ++
      (List.replicate r.Length Edit.del ++
        (r.ReplacementText.data.map Edit.ins ++ toScript (r.Offset + r.Length) rs))

/-- Running an edit script over a text; a script that keeps or deletes past
the end of the text fails. -/
def runScript : List Edit → List Char → Option (List Char)
  | [], code => some code
  | Edit.ins c :: es, code => (runScript es code).map (fun t => c :: t)
  | Edit.keep :: _, [] => none
  | Edit.keep :: es, c :: code => (runScript es code).map (fun t => c :: t)
  | Edit.del :: _, [] => none
  | Edit.del :: es, _ :: code => runScript es code

/-- Composition when the first script keeps the next byte: the second script
decides what becomes of it.  The argument `k` composes the rest of the first
script. -/
def composeKeep (k : List Edit → List Edit) (rest : List Edit) : List Edit → List Edit
  | [] => Edit.keep :: rest
  | Edit.ins d :: es => Edit.ins d :: composeKeep k rest es
  | Edit.keep :: es => Edit.keep :: k es
  | Edit.del :: es => Edit.del :: k es

/-- Composition when the first script inserts the byte `c`: the second script
keeps it (it stays an insertion) or deletes it (nothing is left of it). -/
def composeIns (c : Char) (k : List Edit → List Edit) (rest : List Edit) : List Edit → List Edit
  | [] => Edit.ins c :: rest
  | Edit.ins d :: es => Edit.ins d :: composeIns c k rest es
  | Edit.keep :: es => Edit.ins c :: k es
  | Edit.del :: es => k es

/-- Modelled from the spec: composition of two edit scripts, the second one
written against the output of the first ("mapping R2's post-R1 offsets back
through R1", section 4.7).  The result is written against the input of the
first. -/
def compose : List Edit → List Edit → List Edit
  | [], es => es
  | Edit.del :: rest, es => Edit.del :: compose rest es
  | Edit.keep :: rest, es => composeKeep (compose rest) rest es
  | Edit.ins c :: rest, es => composeIns c (compose rest) rest es

/-- Close the replacement collected so far, if it does anything. -/
def flush (FilePath : String) (off len : Nat) (txt : List Char) : Replacements :=
  if len = 0 ∧ txt = [] then []
  else [{ FilePath := FilePath, Offset := off, Length := len, ReplacementText := String.mk txt }]

/-- Modelled from the spec: an edit script turned back into an offset-ordered
set of non-overlapping replacements; `off`, `len`, `txt` describe the
replacement being collected (bytes deleted from `off` on, text inserted). -/
def collect (FilePath : String) : Nat → Nat → List Char → List Edit → Replacements
  | off, len, txt, [] => flush FilePath off len txt
  | off, len, txt, Edit.keep :: es =>
    flush FilePath off len txt ++ collect FilePath (off + len + 1) 0 [] es
  | off, len, txt, Edit.del :: es => collect FilePath off (len + 1) txt es
  | off, len, txt, Edit.ins c :: es => collect FilePath off len (txt ++ [c]) es

/-- The file the members of a merged set are recorded against. -/
def mergedFilePath : Replacements → Replacements → String
  | r :: _, _ => r.FilePath
  | [], r :: _ => r.FilePath
  | [], [] => ""

/-- Modelled from the spec: the Replacement Merger of section 4.7 (missing:
`Replacements::merge`).  `Second` refers to the text after `First`; the result
refers to the text before `First`. -/
def mergeReplacements (First Second : Replacements) : Replacements :=
  collect (mergedFilePath First Second) 0 0 [] (compose (toScript 0 First) (toScript 0 Second))

/-- Modelled from the spec: the Edit Buffer / Output Producer of section 4.9
(missing: `Rewriter`, `applyAllReplacements(Replaces, Rewrite)` and
`getEditBuffer(ID).write`).  The set is validated again and applied to the
bytes of the file `createFile` returned; a set that does not validate leaves
the buffer as it was read.  No diagnostic is raised. -/
def rewriteBuffer (_FileName Contents : String) (Replaces : Replacements) : List String × String :=
  match applyFrom 0 Contents.data Replaces with
  | some t => ([], String.mk t)
  | none => ([], Contents)

/-- The directory part of a path: everything before its last `/`. -/
def parentDirectory (Path : String) : String :=
  String.mk ((Path.data.reverse.dropWhile (fun c => decide (c ≠ '/'))).drop 1).reverse

/-- Modelled from the spec: the scratch artifact of section 4.8 (missing:
`std::ofstream`).  The stream opens only when the directory of the path
exists; then the file holds exactly the bytes written.  When it does not
open, nothing is written and, as nothing checks the stream, nothing is
reported. -/
def writeFile (FS : FileSystem) (Path Contents : String) : FileSystem :=
  if parentDirectory Path ∈ FS.Directories then
    { FS with Files := (Path, Contents) :: FS.Files.filter (fun f => decide (f.1 ≠ Path)) }
  else FS

/-- The path a file manager working in `WorkingDirectory` looks a name up at:
the name itself when it starts with `/`, the working directory joined with the
name otherwise. -/
def resolvePath (WorkingDirectory FileName : String) : String :=
  match FileName.data with
  | '/' :: _ => FileName
  | _ => WorkingDirectory ++ "/" ++ FileName

/-- Modelled from the spec: the location-tracking collaborator of section 4.8
(missing: `FileManager::getOptionalFileRef` and the buffer of the file id).
The bytes of the file at the resolved path, if there is one. -/
def findFile (WorkingDirectory : String) (FS : FileSystem) (FileName : String) : Option String :=
  (FS.Files.find? (fun f => decide (f.1 = resolvePath WorkingDirectory FileName))).map
    (fun f => f.2)

/-- A file system with the scratch directory `/tmp` and no file in it. -/
def scratchDisk : FileSystem :=
  { Directories := ["/", "/tmp"], Files := [] }

/-- The collaborators built from the modelled replacement-set operations, from
a file system `Disk` with `/tmp` as working directory, and from the four
external pieces, which stay parameters: style resolver, include sorter, range
recalculator and formatting engine. -/
def libraryOn (Disk : FileSystem)
    (getStyle : String → String → String → String → Except String FormatStyle)
    (sortIncludes : FormatStyle → String → List Range → String → Replacements × Nat)
    (calculateRangesAfterReplacements : Replacements → List Range → List Range)
    (reformat : FormatStyle → String → List Range → String → Replacements × FormattingAttemptStatus) :
    Collaborators Replacements :=
  { getStyle := getStyle
    sortIncludes := sortIncludes
    add := addReplacement
    applyAllReplacements := applyAll
    calculateRangesAfterReplacements := calculateRangesAfterReplacements
    reformat := reformat
    merge := mergeReplacements
    getCurrentWorkingDirectory := "/tmp"
    Disk := Disk
    ofstream := writeFile
    getOptionalFileRef := findFile "/tmp"
    rewrite := rewriteBuffer }

/-- The collaborators over the empty scratch directory. -/
def library
    (getStyle : String → String → String → String → Except String FormatStyle)
    (sortIncludes : FormatStyle → String → List Range → String → Replacements × Nat)
    (calculateRangesAfterReplacements : Replacements → List Range → List Range)
    (reformat : FormatStyle → String → List Range → String → Replacements × FormattingAttemptStatus) :
    Collaborators Replacements :=
  libraryOn scratchDisk getStyle sortIncludes calculateRangesAfterReplacements reformat

/-! ## Sample collaborators for concrete runs -/

/-- A resolved style for C-family code with qualifier alignment left alone. -/
def cppStyle : FormatStyle :=
  { Language := LanguageKind.LK_Cpp
    QualifierAlignment := QualifierAlignmentStyle.QAS_Leave
    QualifierOrder := ["const", "volatile", "type"]
    SortIncludes := SortIncludesOptions.SI_CaseSensitive
    DisableFormat := false
    Knobs := "BasedOnStyle: LLVM" }

/-- A resolved style for JSON with formatting enabled. -/
def jsonStyle : FormatStyle :=
  { cppStyle with Language := LanguageKind.LK_Json }

/-- A style resolver that always yields `S`. -/
def resolveTo (S : FormatStyle) : String → String → String → String → Except String FormatStyle :=
  fun _ _ _ _ => Except.ok S

/-- A style resolver that rejects every request. -/
def resolveFails : String → String → String → String → Except String FormatStyle :=
  fun StyleName _ _ _ => Except.error ("Invalid value for -style: " ++ StyleName)

/-- An include sorter that finds nothing to reorder. -/
def sortNothing : FormatStyle → String → List Range → String → Replacements × Nat :=
  fun _ _ _ _ => ([], 0)

/-- An include sorter that yields the given set. -/
def sortTo (Replaces : Replacements) : FormatStyle → String → List Range → String → Replacements × Nat :=
  fun _ _ _ _ => (Replaces, 0)

/-- A range recalculator that hands the ranges on unchanged. -/
def keepRanges : Replacements → List Range → List Range :=
  fun _ Ranges => Ranges

/-- A formatting engine that yields the given set and completion flag. -/
def engineTo (Replaces : Replacements) (Complete : Bool) :
    FormatStyle → String → List Range → String → Replacements × FormattingAttemptStatus :=
  fun _ _ _ _ => (Replaces, { FormatComplete := Complete, Line := 0 })

/-- The sample text `{"a": 1}`. -/
def sampleJson : String := "\x7b\"a\": 1\x7d"

/-- A resolved style whose alignment is Left with an order other than the
fixed triple. -/
def leftStyle : FormatStyle :=
  { cppStyle with
    QualifierAlignment := QualifierAlignmentStyle.QAS_Left
    QualifierOrder := ["volatile", "const", "type"] }

/-- The first member of a set, if any, starts at offset `p` or later. -/
def startsFrom (p : Nat) : Replacements → Prop
  | [] => True
  | r :: _ => p ≤ r.Offset

/-- An offset-ordered set from offset `pos` on in which at least one byte is
kept between any two members. -/
def separatedFrom (pos : Nat) : Replacements → Prop
  | [] => True
  | r :: rs => pos ≤ r.Offset ∧ separatedFrom (r.Offset + r.Length + 1) rs

/-- The set R1 of a run of `format`: the include sorter's set after the JSON
block (lines 109-118), for the style `Resolved` that the resolver gave. -/
def firstSet {R : Type} (G : Globals) (C : Collaborators R) (source : String)
    (Resolved : FormatStyle) : R :=
  (insertJsonShim C G.AssumeFileName (prepareStyle Resolved)
    (C.sortIncludes (prepareStyle Resolved) source [] G.AssumeFileName).1).1

/-- The set R2 of a run of `format`: the engine's answer (lines 125-128) on the
intermediate text `ChangedCode`. -/
def secondSet {R : Type} (G : Globals) (C : Collaborators R) (source : String)
    (Resolved : FormatStyle) (ChangedCode : String) : R :=
  (C.reformat (prepareStyle Resolved) ChangedCode
    (C.calculateRangesAfterReplacements (firstSet G C source Resolved) []) G.AssumeFileName).1

/-- A source with the same include line twice and a doubled blank. -/
def sampleCpp : String := "#include <a>\n#include <a>\nint  x;"

/-- The include sorter's set for `sampleCpp`: the second include line (offsets
13 to 26) is deleted, so every later offset moves down by 13. -/
def sampleSorted : Replacements :=
  [{ FilePath := "<stdin>", Offset := 13, Length := 13, ReplacementText := "" }]

/-- The engine's set for the text after sorting, `#include <a>` and `int  x;`:
the doubled blank at offset 16 of that text becomes one. -/
def sampleFormatted : Replacements :=
  [{ FilePath := "<stdin>", Offset := 16, Length := 2, ReplacementText := " " }]

/-- A file system in which a file with other bytes already lies at the
absolute path `/tmp/stale.cpp`. -/
def staleDisk : FileSystem :=
  { Directories := ["/", "/tmp"], Files := [("/tmp/stale.cpp", "STALE!")] }

theorem equalsInsensitive_iff (a b : List Char) :
    equalsInsensitive a b = true ↔ a.map toLower = b.map toLower := by
  induction a generalizing b with
  | nil => cases b <;> simp [equalsInsensitive]
  | cons x xs ih => cases b <;> simp [equalsInsensitive, ih]

theorem lower_eq_iff (q l : String) :
    lower q = lower l ↔ equalsInsensitive q.data l.data = true := by
  rw [equalsInsensitive_iff]
  constructor
  · intro h
    exact congrArg String.data h
  · intro h
    exact congrArg String.mk h

theorem lower_left : lower "left" = "left" := by decide

theorem lower_right : lower "right" = "right" := by decide

theorem switch_left (q : String) (D : QualifierAlignmentStyle)
    (h : equalsInsensitive q.data "left".data = true) :
    switchQualifierAlignment q D = QualifierAlignmentStyle.QAS_Left := by
  have hl : lower q = "left" := lower_left ▸ (lower_eq_iff q "left").2 h
  simp [switchQualifierAlignment, hl]

theorem switch_right (q : String) (D : QualifierAlignmentStyle)
    (h : equalsInsensitive q.data "right".data = true) :
    switchQualifierAlignment q D = QualifierAlignmentStyle.QAS_Right := by
  have hl : lower q = "right" := lower_right ▸ (lower_eq_iff q "right").2 h
  simp [switchQualifierAlignment, hl]

theorem switch_default (q : String) (D : QualifierAlignmentStyle)
    (hl : equalsInsensitive q.data "left".data = false)
    (hr : equalsInsensitive q.data "right".data = false) :
    switchQualifierAlignment q D = D := by
  have h1 : lower q ≠ "left" := by
    intro h
    have := (lower_eq_iff q "left").1 (lower_left.symm ▸ h)
    simp [hl] at this
  have h2 : lower q ≠ "right" := by
    intro h
    have := (lower_eq_iff q "right").1 (lower_right.symm ▸ h)
    simp [hr] at this
  simp [switchQualifierAlignment, h1, h2]

theorem length_ne_zero_of_ne_empty (s : String) (h : s ≠ "") : s.length ≠ 0 := by
  intro h0
  apply h
  cases s with
  | mk d =>
    have : d = [] := List.length_eq_zero.mp h0
    subst this
    rfl

theorem startsWith_iff (hay needle : List Char) :
    startsWith hay needle = true ↔ ∃ b, hay = needle ++ b := by
  induction needle generalizing hay with
  | nil => cases hay <;> simp [startsWith]
  | cons n ns ih =>
    cases hay with
    | nil => simp [startsWith]
    | cons h hs =>
      simp only [startsWith, Bool.and_eq_true, decide_eq_true_eq, ih, List.cons_append,
        List.cons.injEq]
      constructor
      · rintro ⟨rfl, b, rfl⟩
        exact ⟨b, rfl, rfl⟩
      · rintro ⟨b, rfl, rfl⟩
        exact ⟨rfl, b, rfl⟩

theorem containsList_iff (hay needle : List Char) :
    containsList hay needle = true ↔ ∃ a b, hay = a ++ (needle ++ b) := by
  induction hay with
  | nil =>
    simp only [containsList, startsWith_iff]
    constructor
    · rintro ⟨b, hb⟩
      exact ⟨[], b, hb⟩
    · rintro ⟨a, b, hab⟩
      have h1 : a = [] := by
        cases a with
        | nil => rfl
        | cons x xs => simp at hab
      subst h1
      exact ⟨b, hab⟩
  | cons h hs ih =>
    simp only [containsList, Bool.or_eq_true, startsWith_iff, ih]
    constructor
    · rintro (⟨b, hb⟩ | ⟨a, b, hab⟩)
      · exact ⟨[], b, hb⟩
      · exact ⟨h :: a, b, by simp [hab]⟩
    · rintro ⟨a, b, hab⟩
      cases a with
      | nil => exact Or.inl ⟨b, hab⟩
      | cons x xs =>
        simp only [List.cons_append, List.cons.injEq] at hab
        exact Or.inr ⟨xs, b, hab.2⟩

theorem contains_iff (s needle : String) :
    contains s needle = true ↔ ∃ a b : List Char, s.data = a ++ (needle.data ++ b) :=
  containsList_iff s.data needle.data

theorem modifyHead_self (l : List (List Char)) : l.modifyHead (fun t => t) = l := by
  cases l <;> rfl

theorem splitLoop_eq (tok cs : List Char) :
    splitLoop tok cs =
      ((((cs.splitOn ' ').modifyHead (fun t => tok ++ t)).filter
        (fun t => decide (t ≠ []))).map String.mk) := by
  induction cs generalizing tok with
  | nil =>
    by_cases h : tok = [] <;> simp [splitLoop, pushToken, List.splitOn, h]
  | cons c cs ih =>
    unfold splitLoop
    simp only [List.splitOn] at ih ⊢
    rw [List.splitOnP_cons]
    by_cases hc : c = ' '
    · subst hc
      have h0 := ih []
      simp only [List.nil_append] at h0
      by_cases h : tok = [] <;> simp [pushToken, h, h0, modifyHead_self]
    · simp [hc, ih (tok ++ [c]), Function.comp_def]

theorem split_eq_spaceTokens (s : String) : split s = spaceTokens s := by
  have h := splitLoop_eq [] s.data
  simp only [List.nil_append] at h
  simpa [split, spaceTokens, modifyHead_self] using h

theorem normalizeQualifiers_Language (q : String) (S : FormatStyle) :
    (normalizeQualifiers q S).Language = S.Language := by
  unfold normalizeQualifiers
  simp only
  split_ifs <;> rfl

theorem normalizeQualifiers_DisableFormat (q : String) (S : FormatStyle) :
    (normalizeQualifiers q S).DisableFormat = S.DisableFormat := by
  unfold normalizeQualifiers
  simp only
  split_ifs <;> rfl

theorem prepareStyle_isJson (S : FormatStyle) : (prepareStyle S).isJson = S.isJson := by
  simp [prepareStyle, FormatStyle.isJson, normalizeQualifiers_Language]

theorem prepareStyle_DisableFormat (S : FormatStyle) :
    (prepareStyle S).DisableFormat = S.DisableFormat := by
  simp [prepareStyle, normalizeQualifiers_DisableFormat]

theorem sorterRanges_append (a b : List Call) :
    sorterRanges (a ++ b) = sorterRanges a ++ sorterRanges b := by
  induction a with
  | nil => rfl
  | cons c cs ih => cases c <;> simp [sorterRanges, ih]

theorem engineRanges_append (a b : List Call) :
    engineRanges (a ++ b) = engineRanges a ++ engineRanges b := by
  induction a with
  | nil => rfl
  | cons c cs ih => cases c <;> simp [engineRanges, ih]

theorem insertJsonShim_calls {R : Type} (C : Collaborators R) (FileName : String)
    (S : FormatStyle) (Replaces : R) :
    sorterRanges (insertJsonShim C FileName S Replaces).2.2 = [] ∧
    engineRanges (insertJsonShim C FileName S Replaces).2.2 = [] := by
  unfold insertJsonShim
  split
  · split <;> simp [sorterRanges, engineRanges]
  · simp [sorterRanges, engineRanges]

/-! ## Edit scripts and the merged set -/

theorem runScript_ins_append (txt : List Char) (es : List Edit) (code : List Char) :
    runScript (txt.map Edit.ins ++ es) code = (runScript es code).map (fun t => txt ++ t) := by
  induction txt with
  | nil => simp
  | cons c cs ih => simp [runScript, ih, Option.map_map, Function.comp_def]

theorem runScript_keep_append (n : Nat) (es : List Edit) (code : List Char)
    (h : n ≤ code.length) :
    runScript (List.replicate n Edit.keep ++ es) code =
      (runScript es (code.drop n)).map (fun t => code.take n ++ t) := by
  induction n generalizing code with
  | zero => simp
  | succ k ih =>
    cases code with
    | nil => simp at h
    | cons c cs =>
      have hk : k ≤ cs.length := by simpa using h
      simp [List.replicate_succ, runScript, ih cs hk, Option.map_map, Function.comp_def]

theorem runScript_del_append (n : Nat) (es : List Edit) (code : List Char)
    (h : n ≤ code.length) :
    runScript (List.replicate n Edit.del ++ es) code = runScript es (code.drop n) := by
  induction n generalizing code with
  | zero => simp
  | succ k ih =>
    cases code with
    | nil => simp at h
    | cons c cs =>
      have hk : k ≤ cs.length := by simpa using h
      simp [List.replicate_succ, runScript, ih cs hk]

theorem runScript_toScript (rs : Replacements) (pos : Nat) (code out : List Char)
    (h : applyFrom pos code rs = some out) :
    runScript (toScript pos rs) code = some out := by
  induction rs generalizing pos code out with
  | nil => simpa [applyFrom, toScript, runScript] using h
  | cons r rs ih =>
    unfold applyFrom at h
    split_ifs at h with hc
    obtain ⟨t, ht, hout⟩ := Option.map_eq_some'.mp h
    have hk : r.Offset - pos ≤ code.length := by omega
    have hn : r.Length ≤ (code.drop (r.Offset - pos)).length := by
      simp only [List.length_drop]
      omega
    have hrec := ih _ _ _ ht
    simp only [toScript]
    rw [runScript_keep_append _ _ _ hk, runScript_del_append _ _ _ hn, runScript_ins_append,
      List.drop_drop]
    rw [hrec]
    simp [← hout]

theorem runScript_compose (a b : List Edit) (code mid out : List Char)
    (ha : runScript a code = some mid) (hb : runScript b mid = some out) :
    runScript (compose a b) code = some out := by
  induction a generalizing b code mid out with
  | nil =>
    simp only [runScript, Option.some.injEq] at ha
    subst ha
    simpa [compose] using hb
  | cons e rest ih =>
    cases e with
    | del =>
      cases code with
      | nil => simp [runScript] at ha
      | cons c cs =>
        simp only [runScript] at ha
        simpa [compose, runScript] using ih b cs mid out ha hb
    | keep =>
      cases code with
      | nil => simp [runScript] at ha
      | cons c cs =>
        simp only [runScript] at ha
        obtain ⟨m, hm, hmid⟩ := Option.map_eq_some'.mp ha
        subst hmid
        simp only [compose]
        induction b generalizing out with
        | nil =>
          simp only [runScript, Option.some.injEq] at hb
          subst hb
          simp [composeKeep, runScript, hm]
        | cons f fs ihb =>
          cases f with
          | ins d =>
            simp only [runScript] at hb
            obtain ⟨o, ho, hout⟩ := Option.map_eq_some'.mp hb
            subst hout
            simp [composeKeep, runScript, ihb o ho]
          | keep =>
            simp only [runScript] at hb
            obtain ⟨o, ho, hout⟩ := Option.map_eq_some'.mp hb
            subst hout
            simp [composeKeep, runScript, ih fs cs m o hm ho]
          | del =>
            simp only [runScript] at hb
            simp [composeKeep, runScript, ih fs cs m out hm hb]
    | ins c =>
      simp only [runScript] at ha
      obtain ⟨m, hm, hmid⟩ := Option.map_eq_some'.mp ha
      subst hmid
      simp only [compose]
      induction b generalizing out with
      | nil =>
        simp only [runScript, Option.some.injEq] at hb
        subst hb
        simp [composeIns, runScript, hm]
      | cons f fs ihb =>
        cases f with
        | ins d =>
          simp only [runScript] at hb
          obtain ⟨o, ho, hout⟩ := Option.map_eq_some'.mp hb
          subst hout
          simp [composeIns, runScript, ihb o ho]
        | keep =>
          simp only [runScript] at hb
          obtain ⟨o, ho, hout⟩ := Option.map_eq_some'.mp hb
          subst hout
          simp [composeIns, runScript, ih fs code m o hm ho]
        | del =>
          simp only [runScript] at hb
          simp [composeIns, runScript, ih fs code m out hm hb]

theorem startsFrom_mono (p q : Nat) (rs : Replacements) (hpq : p ≤ q)
    (h : startsFrom q rs) : startsFrom p rs := by
  cases rs with
  | nil => trivial
  | cons r rs => exact Nat.le_trans hpq h

theorem startsFrom_collect (f : String) (es : List Edit) (off len : Nat) (txt : List Char) :
    startsFrom off (collect f off len txt es) := by
  induction es generalizing off len txt with
  | nil =>
    unfold collect flush
    split_ifs <;> simp [startsFrom]
  | cons e es ih =>
    cases e with
    | keep =>
      unfold collect flush
      split_ifs
      · exact startsFrom_mono _ _ _ (by omega) (ih (off + len + 1) 0 [])
      · simp [startsFrom]
    | del => exact ih off (len + 1) txt
    | ins c => exact ih off len (txt ++ [c])

theorem applyFrom_skip (k pos : Nat) (code : List Char) (rs : Replacements)
    (hk : k ≤ code.length) (hs : startsFrom (pos + k) rs) :
    applyFrom pos code rs =
      (applyFrom (pos + k) (code.drop k) rs).map (fun t => code.take k ++ t) := by
  cases rs with
  | nil => simp [applyFrom]
  | cons r rs =>
    simp only [startsFrom] at hs
    have e1 : r.Offset - pos = k + (r.Offset - (pos + k)) := by omega
    have e2 : r.Offset - pos + r.Length = k + (r.Offset - (pos + k) + r.Length) := by omega
    unfold applyFrom
    by_cases hc : pos ≤ r.Offset ∧ r.Offset - pos + r.Length ≤ code.length
    · have hc2 : pos + k ≤ r.Offset ∧
          r.Offset - (pos + k) + r.Length ≤ (code.drop k).length := by
        simp only [List.length_drop]
        omega
      rw [if_pos hc, if_pos hc2, List.drop_drop, Option.map_map, e2, e1, List.take_add]
      congr 1
      funext t
      simp [List.append_assoc]
    · have hc2 : ¬ (pos + k ≤ r.Offset ∧
          r.Offset - (pos + k) + r.Length ≤ (code.drop k).length) := by
        simp only [List.length_drop]
        omega
      rw [if_neg hc, if_neg hc2]
      rfl

theorem applyFrom_flush (f : String) (off len : Nat) (txt pre code : List Char)
    (rs : Replacements) (hpre : pre.length = len) (hs : startsFrom (off + len) rs) :
    applyFrom off (pre ++ code) (flush f off len txt ++ rs) =
      (applyFrom (off + len) code rs).map (fun t => txt ++ t) := by
  unfold flush
  split_ifs with h
  · obtain ⟨h0, ht⟩ := h
    subst h0
    subst ht
    have : pre = [] := List.length_eq_zero.mp hpre
    subst this
    simp
  · subst hpre
    simp [applyFrom]

theorem applyFrom_collect (f : String) (es : List Edit) (off len : Nat)
    (txt pre code out : List Char) (hpre : pre.length = len)
    (h : runScript es code = some out) :
    applyFrom off (pre ++ code) (collect f off len txt es) = some (txt ++ out) := by
  induction es generalizing off len txt pre code out with
  | nil =>
    simp only [runScript, Option.some.injEq] at h
    subst h
    have := applyFrom_flush f off len txt pre code [] hpre trivial
    simpa [collect, applyFrom] using this
  | cons e es ih =>
    cases e with
    | keep =>
      cases code with
      | nil => simp [runScript] at h
      | cons c cs =>
        simp only [runScript] at h
        obtain ⟨o, ho, hout⟩ := Option.map_eq_some'.mp h
        subst hout
        have hst := startsFrom_collect f es (off + len + 1) 0 []
        have hrec := ih (off + len + 1) 0 [] [] cs o rfl ho
        simp only [collect]
        rw [applyFrom_flush f off len txt pre (c :: cs) _ hpre (startsFrom_mono _ _ _ (by omega) hst),
          applyFrom_skip 1 (off + len) (c :: cs) _ (by simp) hst]
        simp at hrec
        simp [hrec]
    | del =>
      cases code with
      | nil => simp [runScript] at h
      | cons c cs =>
        simp only [runScript] at h
        have hrec := ih off (len + 1) txt (pre ++ [c]) cs out (by simp [hpre]) h
        simpa [collect] using hrec
    | ins c =>
      simp only [runScript] at h
      obtain ⟨o, ho, hout⟩ := Option.map_eq_some'.mp h
      subst hout
      have hrec := ih off len (txt ++ [c]) pre code o hpre ho
      simpa [collect] using hrec

theorem applyFrom_merge (First Second : Replacements) (code mid out : List Char)
    (h1 : applyFrom 0 code First = some mid) (h2 : applyFrom 0 mid Second = some out) :
    applyFrom 0 code (mergeReplacements First Second) = some out := by
  have hc := runScript_compose _ _ _ _ _ (runScript_toScript _ _ _ _ h1)
    (runScript_toScript _ _ _ _ h2)
  simpa [mergeReplacements] using
    applyFrom_collect (mergedFilePath First Second) _ 0 0 [] [] code out rfl hc

theorem separatedFrom_mono (p q : Nat) (rs : Replacements) (hpq : p ≤ q)
    (h : separatedFrom q rs) : separatedFrom p rs := by
  cases rs with
  | nil => trivial
  | cons r rs => exact ⟨Nat.le_trans hpq h.1, h.2⟩

theorem separatedFrom_collect (f : String) (es : List Edit) (off len : Nat) (txt : List Char) :
    separatedFrom off (collect f off len txt es) := by
  induction es generalizing off len txt with
  | nil =>
    unfold collect flush
    split_ifs <;> simp [separatedFrom]
  | cons e es ih =>
    cases e with
    | keep =>
      unfold collect flush
      split_ifs
      · exact separatedFrom_mono _ _ _ (by omega) (ih (off + len + 1) 0 [])
      · exact ⟨Nat.le_refl _, ih (off + len + 1) 0 []⟩
    | del => exact ih off (len + 1) txt
    | ins c => exact ih off len (txt ++ [c])

theorem separatedFrom_offsets (p : Nat) (rs : Replacements) (h : separatedFrom p rs) :
    ∀ m ∈ rs, p ≤ m.Offset := by
  induction rs generalizing p with
  | nil => simp
  | cons r rs ih =>
    intro m hm
    rcases List.mem_cons.mp hm with hmr | hmr
    · subst hmr
      exact h.1
    · have := ih _ h.2 m hmr
      have h1 := h.1
      omega

theorem separatedFrom_pairwise (p : Nat) (rs : Replacements) (h : separatedFrom p rs) :
    rs.Pairwise (fun a b => conflicts a b = false) := by
  induction rs generalizing p with
  | nil => exact List.Pairwise.nil
  | cons r rs ih =>
    refine List.Pairwise.cons ?_ (ih _ h.2)
    intro m hm
    have hoff := separatedFrom_offsets _ _ h.2 m hm
    simp only [conflicts, Bool.or_eq_false_iff, Bool.and_eq_false_iff, decide_eq_false_iff_not]
    constructor
    · omega
    · right
      omega

theorem mergeReplacements_conflict_free (First Second : Replacements) :
    (mergeReplacements First Second).Pairwise (fun a b => conflicts a b = false) :=
  separatedFrom_pairwise 0 _ (separatedFrom_collect _ _ 0 0 [])

theorem applyAll_ok (Code out : String) (Replaces : Replacements)
    (h : applyAll Code Replaces = Except.ok out) :
    applyFrom 0 Code.data Replaces = some out.data := by
  unfold applyAll at h
  split at h
  · rename_i t ht
    simp only [Except.ok.injEq] at h
    subst h
    exact ht
  · simp at h

theorem applyAll_of_applyFrom (Code : String) (out : List Char) (Replaces : Replacements)
    (h : applyFrom 0 Code.data Replaces = some out) :
    applyAll Code Replaces = Except.ok (String.mk out) := by
  simp [applyAll, h]

theorem format_library_result (G : Globals) (Disk : FileSystem)
    (getStyle : String → String → String → String → Except String FormatStyle)
    (sortIncludes : FormatStyle → String → List Range → String → Replacements × Nat)
    (calculateRanges : Replacements → List Range → List Range)
    (reformat : FormatStyle → String → List Range → String → Replacements × FormattingAttemptStatus)
    (source mid out : String) (Resolved : FormatStyle)
    (hne : source ≠ "")
    (hst : getStyle G.Style G.AssumeFileName G.FallbackStyle source = Except.ok Resolved)
    (h1 : applyAll source
      (firstSet G (libraryOn Disk getStyle sortIncludes calculateRanges reformat) source
        Resolved) = Except.ok mid)
    (h2 : applyAll mid
      (secondSet G (libraryOn Disk getStyle sortIncludes calculateRanges reformat) source
        Resolved mid) = Except.ok out)
    (hfile : createFile (libraryOn Disk getStyle sortIncludes calculateRanges reformat)
      G.AssumeFileName source = some source) :
    format G (libraryOn Disk getStyle sortIncludes calculateRanges reformat) source =
      { result := out
        errs := (insertJsonShim (libraryOn Disk getStyle sortIncludes calculateRanges reformat)
          G.AssumeFileName (prepareStyle Resolved)
          (sortIncludes (prepareStyle Resolved) source [] G.AssumeFileName).1).2.1
        calls :=
          [Call.getStyle G.Style G.AssumeFileName G.FallbackStyle source,
           Call.sortIncludes (prepareStyle Resolved) source [] G.AssumeFileName] ++
          (insertJsonShim (libraryOn Disk getStyle sortIncludes calculateRanges reformat)
            G.AssumeFileName (prepareStyle Resolved)
            (sortIncludes (prepareStyle Resolved) source [] G.AssumeFileName).1).2.2 ++
          [Call.applyAllReplacements source,
           Call.calculateRangesAfterReplacements [],
           Call.reformat (prepareStyle Resolved) mid
             (calculateRanges
               (firstSet G (libraryOn Disk getStyle sortIncludes calculateRanges reformat)
                 source Resolved) []) G.AssumeFileName,
           Call.merge,
           Call.createFile (createFilePath "/tmp" G.AssumeFileName) source,
           Call.rewrite G.AssumeFileName] } := by
  have hlen : source.length ≠ 0 := length_ne_zero_of_ne_empty source hne
  have hm := applyFrom_merge _ _ _ _ _ (applyAll_ok _ _ _ h1) (applyAll_ok _ _ _ h2)
  have hst2 : (libraryOn Disk getStyle sortIncludes calculateRanges reformat).getStyle G.Style
      G.AssumeFileName G.FallbackStyle source = Except.ok Resolved := hst
  have h12 : (libraryOn Disk getStyle sortIncludes calculateRanges reformat).applyAllReplacements
      source
      (insertJsonShim (libraryOn Disk getStyle sortIncludes calculateRanges reformat)
        G.AssumeFileName (prepareStyle Resolved)
        ((libraryOn Disk getStyle sortIncludes calculateRanges reformat).sortIncludes
          (prepareStyle Resolved) source [] G.AssumeFileName).1).1 = Except.ok mid := h1
  have hm2 : applyFrom 0 source.data
      ((libraryOn Disk getStyle sortIncludes calculateRanges reformat).merge
        (insertJsonShim (libraryOn Disk getStyle sortIncludes calculateRanges reformat)
          G.AssumeFileName (prepareStyle Resolved)
          ((libraryOn Disk getStyle sortIncludes calculateRanges reformat).sortIncludes
            (prepareStyle Resolved) source [] G.AssumeFileName).1).1
        ((libraryOn Disk getStyle sortIncludes calculateRanges reformat).reformat
          (prepareStyle Resolved) mid
          ((libraryOn Disk getStyle sortIncludes calculateRanges reformat).calculateRangesAfterReplacements
            (insertJsonShim (libraryOn Disk getStyle sortIncludes calculateRanges reformat)
              G.AssumeFileName (prepareStyle Resolved)
              ((libraryOn Disk getStyle sortIncludes calculateRanges reformat).sortIncludes
                (prepareStyle Resolved) source [] G.AssumeFileName).1).1 [])
          G.AssumeFileName).1) = some out.data := hm
  simp only [format, hlen, hst2, h12, hfile, if_false]
  have hrw : (libraryOn Disk getStyle sortIncludes calculateRanges reformat).rewrite =
      rewriteBuffer := rfl
  simp only [hrw, rewriteBuffer, hm2]
  simp [firstSet, libraryOn]

theorem dropWhile_append_stop (p : Char → Bool) (l r : List Char) (a : Char)
    (hl : ∀ x ∈ l, p x = true) (ha : p a = false) :
    (l ++ a :: r).dropWhile p = a :: r := by
  induction l with
  | nil => simp [List.dropWhile, ha]
  | cons x xs ih =>
    have hx : p x = true := hl x (List.mem_cons_self x xs)
    have hxs : ∀ y ∈ xs, p y = true := fun y hy => hl y (List.mem_cons_of_mem x hy)
    simp [List.dropWhile, hx, ih hxs]

theorem parentDirectory_join (Directory FileName : String) (h : '/' ∉ FileName.data) :
    parentDirectory (createFilePath Directory FileName) = Directory := by
  have hrev : ∀ x ∈ FileName.data.reverse, decide (x ≠ '/') = true := by
    intro x hx
    have : x ∈ FileName.data := List.mem_reverse.mp hx
    simp only [decide_eq_true_eq]
    intro hxe
    exact h (hxe ▸ this)
  simp only [parentDirectory, createFilePath, String.data_append]
  rw [List.reverse_append, List.reverse_append, List.reverse_singleton, List.singleton_append,
    dropWhile_append_stop _ _ _ _ hrev (by simp)]
  simp

theorem resolvePath_plain (Directory FileName : String) (h : '/' ∉ FileName.data) :
    resolvePath Directory FileName = createFilePath Directory FileName := by
  unfold resolvePath
  split
  · rename_i cs hcs
    rw [hcs] at h
    simp at h
  · rfl

/-- For a file name without `/`, over a file system in which `/tmp` exists,
`createFile` hands back the bytes it was given. -/
theorem createFile_plain_name (Disk : FileSystem)
    (getStyle : String → String → String → String → Except String FormatStyle)
    (sortIncludes : FormatStyle → String → List Range → String → Replacements × Nat)
    (calculateRanges : Replacements → List Range → List Range)
    (reformat : FormatStyle → String → List Range → String → Replacements × FormattingAttemptStatus)
    (FileName Source : String) (hdir : "/tmp" ∈ Disk.Directories) (h : '/' ∉ FileName.data) :
    createFile (libraryOn Disk getStyle sortIncludes calculateRanges reformat) FileName Source =
      some Source := by
  simp [createFile, libraryOn, writeFile, findFile, parentDirectory_join _ _ h,
    resolvePath_plain _ _ h, hdir]

/-- With an absolute assumed file name the path written to and the path looked
up differ: the write to `/tmp//tmp/stale.cpp` does not open, nothing
reports it, and the rewriter edits the file that already lies at
`/tmp/stale.cpp`. -/
theorem format_edits_file_found :
    format { Style := "LLVM", FallbackStyle := "LLVM", AssumeFileName := "/tmp/stale.cpp" }
        (libraryOn staleDisk (resolveTo cppStyle) sortNothing keepRanges (engineTo [] true))
        "int x;" =
      { result := "STALE!"
        errs := []
        calls :=
          [Call.getStyle "LLVM" "/tmp/stale.cpp" "LLVM" "int x;",
           Call.sortIncludes cppStyle "int x;" [] "/tmp/stale.cpp",
           Call.applyAllReplacements "int x;",
           Call.calculateRangesAfterReplacements [],
           Call.reformat cppStyle "int x;" [] "/tmp/stale.cpp",
           Call.merge,
           Call.createFile "/tmp//tmp/stale.cpp" "int x;",
           Call.rewrite "/tmp/stale.cpp"] } := by
  decide

/-- With an absolute assumed file name under which no file lies, the assertion
of line 45 fails after the engine has run. -/
theorem format_assertion_fails :
    (format { Style := "LLVM", FallbackStyle := "LLVM", AssumeFileName := "/srv/a.cpp" }
        (libraryOn scratchDisk (resolveTo cppStyle) sortNothing keepRanges (engineTo [] true))
        "int x;").asserted = some "File not added to FS?" := by
  decide

/-! ## The claims -/

/-- C1: for every setting of the process-wide variables and whatever the
collaborators are, `format` on the empty string returns the empty string,
writes no line to the error stream and calls no collaborator (no style
resolution, no include sorting, no engine call, no scratch file). -/
theorem format_empty_source {R : Type} (G : Globals) (C : Collaborators R) :
    format G C "" = { result := "", errs := [], calls := [] } := by
  rfl

/-- C2: on a non-empty source for which the style resolver returns an error,
`format` returns the empty string, writes exactly one line (the text of the
error) and its only call is the one to the style resolver. -/
theorem format_style_error {R : Type} (G : Globals) (C : Collaborators R)
    (source msg : String) (hne : source ≠ "")
    (herr : C.getStyle G.Style G.AssumeFileName G.FallbackStyle source = Except.error msg) :
    format G C source =
      { result := ""
        errs := [msg]
        calls := [Call.getStyle G.Style G.AssumeFileName G.FallbackStyle source] } := by
  have hlen : source.length ≠ 0 := length_ne_zero_of_ne_empty source hne
  simp [format, hlen, herr]

/-- Witness for C2: the style name `nope` is rejected on the source `int x;`. -/
theorem format_style_error_witness :
    format { Style := "nope", FallbackStyle := "LLVM", AssumeFileName := "<stdin>" }
        (library resolveFails sortNothing keepRanges (engineTo [] true)) "int x;" =
      { result := ""
        errs := ["Invalid value for -style: nope"]
        calls := [Call.getStyle "nope" "<stdin>" "LLVM" "int x;"] } :=
  format_style_error { Style := "nope", FallbackStyle := "LLVM", AssumeFileName := "<stdin>" }
    (library resolveFails sortNothing keepRanges (engineTo [] true)) "int x;"
    "Invalid value for -style: nope" (by decide) rfl

/-- C8: for every resolved style, a request equal to `left` ignoring letter
case yields alignment Left and the order `const volatile type`, and a request
equal to `right` ignoring letter case yields alignment Right and the order
`type const volatile`; no other field changes. -/
theorem normalize_left_right (S : FormatStyle) (q : String) :
    (equalsInsensitive q.data "left".data = true →
      normalizeQualifiers q S =
        { S with
          QualifierAlignment := QualifierAlignmentStyle.QAS_Left
          QualifierOrder := ["const", "volatile", "type"] }) ∧
    (equalsInsensitive q.data "right".data = true →
      normalizeQualifiers q S =
        { S with
          QualifierAlignment := QualifierAlignmentStyle.QAS_Right
          QualifierOrder := ["type", "const", "volatile"] }) := by
  constructor
  · intro h
    simp [normalizeQualifiers, switch_left q _ h]
  · intro h
    simp [normalizeQualifiers, switch_right q _ h]

/-- Witness for C8: the requests `LeFt` and `RIGHT` on a style that was
aligned Left with another order. -/
theorem normalize_left_right_witness :
    (normalizeQualifiers "LeFt" leftStyle =
        { leftStyle with
          QualifierAlignment := QualifierAlignmentStyle.QAS_Left
          QualifierOrder := ["const", "volatile", "type"] }) ∧
    (normalizeQualifiers "RIGHT" leftStyle =
        { leftStyle with
          QualifierAlignment := QualifierAlignmentStyle.QAS_Right
          QualifierOrder := ["type", "const", "volatile"] }) :=
  ⟨(normalize_left_right leftStyle "LeFt").1 (by decide),
   (normalize_left_right leftStyle "RIGHT").2 (by decide)⟩

/-- C9, as stated, fails: with the empty request a resolved style aligned Left
whose order is `volatile const type` comes out with the order
`const volatile type`. -/
theorem normalize_empty_changes_order :
    (normalizeQualifiers "" leftStyle).QualifierOrder = ["const", "volatile", "type"] ∧
    (normalizeQualifiers "" leftStyle).QualifierOrder ≠ leftStyle.QualifierOrder := by
  decide

/-- C9, amended: with the empty request every field except the order list is
that of the resolved style (the alignment mode included); the order list is
that of the resolved style when its mode is None or Custom, and is reset to
`const volatile type` when the mode is Left and to `type const volatile` when
it is Right. -/
theorem normalize_empty (S : FormatStyle) :
    normalizeQualifiers "" S =
      { S with
        QualifierOrder :=
          match S.QualifierAlignment with
          | QualifierAlignmentStyle.QAS_Left => ["const", "volatile", "type"]
          | QualifierAlignmentStyle.QAS_Right => ["type", "const", "volatile"]
          | QualifierAlignmentStyle.QAS_Leave => S.QualifierOrder
          | QualifierAlignmentStyle.QAS_Custom => S.QualifierOrder } := by
  have hsw : switchQualifierAlignment "" S.QualifierAlignment = S.QualifierAlignment :=
    switch_default "" _ (by decide) (by decide)
  have hc : contains "" "type" = false := by decide
  cases S with
  | mk L A O SI D K =>
    cases A <;> simp [normalizeQualifiers, hsw, hc] at hsw ⊢

/-- C10, as stated, fails: the request `TYPE const` is neither `left` nor
`right`, its lowercased form contains `type`, and yet the style comes out
unchanged (alignment still None); and the request `const<TAB>type` is stored as
the single token `const<TAB>type`, not as the two whitespace-separated tokens. -/
theorem normalize_custom_fails :
    (equalsInsensitive "TYPE const".data "left".data = false ∧
      equalsInsensitive "TYPE const".data "right".data = false ∧
      contains (lower "TYPE const") "type" = true ∧
      normalizeQualifiers "TYPE const" cppStyle = cppStyle ∧
      (normalizeQualifiers "TYPE const" cppStyle).QualifierAlignment ≠
        QualifierAlignmentStyle.QAS_Custom) ∧
    (contains (lower "const\ttype") "type" = true ∧
      (normalizeQualifiers "const\ttype" cppStyle).QualifierOrder = ["const\ttype"] ∧
      splitWhitespace "const\ttype" = ["const", "type"]) := by
  decide

/-- C10, amended: for a request that is neither `left` nor `right` ignoring
letter case, a resolved style aligned Left (Right) keeps its mode and gets the
order `const volatile type` (`type const volatile`); otherwise, if the request
as written (case-sensitively) contains `type`, the mode becomes Custom and the
order becomes the tokens of the request split at the space byte, in order,
empty tokens dropped (`spaceTokens`, which the loop of `split` computes);
otherwise the style is unchanged. -/
theorem normalize_custom (S : FormatStyle) (q : String)
    (hl : equalsInsensitive q.data "left".data = false)
    (hr : equalsInsensitive q.data "right".data = false) :
    normalizeQualifiers q S =
      match S.QualifierAlignment with
      | QualifierAlignmentStyle.QAS_Left =>
        { S with QualifierOrder := ["const", "volatile", "type"] }
      | QualifierAlignmentStyle.QAS_Right =>
        { S with QualifierOrder := ["type", "const", "volatile"] }
      | _ =>
        if contains q "type" = true then
          { S with
            QualifierAlignment := QualifierAlignmentStyle.QAS_Custom
            QualifierOrder := spaceTokens q }
        else S := by
  have hsw : switchQualifierAlignment q S.QualifierAlignment = S.QualifierAlignment :=
    switch_default q _ hl hr
  cases S with
  | mk L A O SI D K =>
    cases A <;> simp [normalizeQualifiers, hsw, split_eq_spaceTokens] at hsw ⊢

/-- Witness for C10 amended: the request `const  type volatile` on a style
with alignment None. -/
theorem normalize_custom_witness :
    normalizeQualifiers "const  type volatile" cppStyle =
      { cppStyle with
        QualifierAlignment := QualifierAlignmentStyle.QAS_Custom
        QualifierOrder := ["const", "type", "volatile"] } :=
  (normalize_custom cppStyle "const  type volatile" (by decide) (by decide)).trans (by decide)

/-- What the code does when the JSON insertion is refused.  Under a JSON style
with formatting enabled, if `Replacements::add` reports an error for the
insertion at offset 0 and the set it leaves behind applies to the source,
`format` writes the line `Bad Json variable insertion` and carries on: it
recalculates the ranges, calls the engine, merges and calls `createFile`; when
`createFile` finds a file it runs the rewriter over it and returns the text of
the edit buffer instead of the empty string. -/
theorem format_shim_conflict_continues {R : Type} (G : Globals) (C : Collaborators R)
    (source e ChangedCode : String) (Resolved : FormatStyle) (Replaces1 : R)
    (hne : source ≠ "")
    (hst : C.getStyle G.Style G.AssumeFileName G.FallbackStyle source = Except.ok Resolved)
    (hjson : Resolved.Language = LanguageKind.LK_Json)
    (hen : Resolved.DisableFormat = false)
    (hadd : C.add (C.sortIncludes (prepareStyle Resolved) source [] G.AssumeFileName).1
      (jsonShim G.AssumeFileName) = (Replaces1, some e))
    (happ : C.applyAllReplacements source Replaces1 = Except.ok ChangedCode) :
    format G C source =
      match createFile C G.AssumeFileName source with
      | none =>
        { result := ""
          errs := ["Bad Json variable insertion"]
          calls :=
            [Call.getStyle G.Style G.AssumeFileName G.FallbackStyle source,
             Call.sortIncludes (prepareStyle Resolved) source [] G.AssumeFileName,
             Call.add (jsonShim G.AssumeFileName),
             Call.applyAllReplacements source,
             Call.calculateRangesAfterReplacements [],
             Call.reformat (prepareStyle Resolved) ChangedCode
               (C.calculateRangesAfterReplacements Replaces1 []) G.AssumeFileName,
             Call.merge,
             Call.createFile (createFilePath C.getCurrentWorkingDirectory G.AssumeFileName)
               source]
          asserted := some "File not added to FS?" }
      | some File =>
        { result :=
            (C.rewrite G.AssumeFileName File
              (C.merge Replaces1
                (C.reformat (prepareStyle Resolved) ChangedCode
                  (C.calculateRangesAfterReplacements Replaces1 []) G.AssumeFileName).1)).2
          errs := "Bad Json variable insertion" ::
            (C.rewrite G.AssumeFileName File
              (C.merge Replaces1
                (C.reformat (prepareStyle Resolved) ChangedCode
                  (C.calculateRangesAfterReplacements Replaces1 []) G.AssumeFileName).1)).1.map
              HandleDiagnostic
          calls :=
            [Call.getStyle G.Style G.AssumeFileName G.FallbackStyle source,
             Call.sortIncludes (prepareStyle Resolved) source [] G.AssumeFileName,
             Call.add (jsonShim G.AssumeFileName),
             Call.applyAllReplacements source,
             Call.calculateRangesAfterReplacements [],
             Call.reformat (prepareStyle Resolved) ChangedCode
               (C.calculateRangesAfterReplacements Replaces1 []) G.AssumeFileName,
             Call.merge,
             Call.createFile (createFilePath C.getCurrentWorkingDirectory G.AssumeFileName)
               source,
             Call.rewrite G.AssumeFileName] } := by
  have hlen : source.length ≠ 0 := length_ne_zero_of_ne_empty source hne
  have hj : (prepareStyle Resolved).isJson = true := by
    rw [prepareStyle_isJson]
    simp [FormatStyle.isJson, hjson]
  have hd : (prepareStyle Resolved).DisableFormat = false := by
    rw [prepareStyle_DisableFormat]
    exact hen
  simp only [format, hlen, hst, insertJsonShim, hj, hd, hadd, if_false]
  cases createFile C G.AssumeFileName source <;> simp [happ]

/-- C5, the code at the failing input: the sample text `{"a": 1}` under a JSON
style, with an include sorter whose set already inserts a line break at
offset 0.  The insertion of `x = ` is refused and one line is written, but the
call does not abort: it still runs the engine and the output stage and returns
a non-empty text. -/
theorem format_shim_conflict_run :
    format (Globals.initial "LLVM")
        (library (resolveTo jsonStyle)
          (sortTo [{ FilePath := "<stdin>", Offset := 0, Length := 0, ReplacementText := "\n" }])
          keepRanges (engineTo [] true)) sampleJson =
      { result := "\n\x7b\"a\": 1\x7d"
        errs := ["Bad Json variable insertion"]
        calls :=
          [Call.getStyle "LLVM" "<stdin>" "LLVM" sampleJson,
           Call.sortIncludes jsonStyle sampleJson [] "<stdin>",
           Call.add (jsonShim "<stdin>"),
           Call.applyAllReplacements sampleJson,
           Call.calculateRangesAfterReplacements [],
           Call.reformat jsonStyle "\n\x7b\"a\": 1\x7d" [] "<stdin>",
           Call.merge,
           Call.createFile "/tmp/<stdin>" sampleJson,
           Call.rewrite "<stdin>"] } :=
  (format_shim_conflict_continues (Globals.initial "LLVM")
    (library (resolveTo jsonStyle)
      (sortTo [{ FilePath := "<stdin>", Offset := 0, Length := 0, ReplacementText := "\n" }])
      keepRanges (engineTo [] true)) sampleJson
    "New replacement conflicts with an existing one" "\n\x7b\"a\": 1\x7d" jsonStyle
    [{ FilePath := "<stdin>", Offset := 0, Length := 0, ReplacementText := "\n" }]
    (by decide) rfl rfl rfl rfl rfl).trans rfl

/-- C6, as stated, fails: with an engine that reports the format as not
complete, `format` on `int x;` returns `int x;` (the text of R1 alone, R1
being empty) and writes no line at all. -/
theorem format_incomplete_not_aborted :
    ((library (resolveTo cppStyle) sortNothing keepRanges (engineTo [] false)).reformat
        cppStyle "int x;" [] "<stdin>").2.FormatComplete = false ∧
    (format (Globals.initial "LLVM")
        (library (resolveTo cppStyle) sortNothing keepRanges (engineTo [] false)) "int x;").result =
      "int x;" ∧
    (format (Globals.initial "LLVM")
        (library (resolveTo cppStyle) sortNothing keepRanges (engineTo [] false)) "int x;").errs =
      [] := by
  decide

/-- C6, amended: the completion status the engine reports is never looked at.
Rewriting the status in any way (complete to incomplete or back) leaves the
whole outcome of `format` unchanged: the same returned text, the same lines
written, the same calls. -/
theorem format_ignores_status {R : Type} (G : Globals) (C : Collaborators R)
    (f : FormattingAttemptStatus → FormattingAttemptStatus) (source : String) :
    format G (withStatus f C) source = format G C source := by
  simp only [format, withStatus, insertJsonShim, createFile]

/-- C7, as stated, fails: on `int x;` (length 6) the range list handed to the
include sorter is the empty list, not the single range `(0, 6)`, and the list
handed to the engine is empty as well when the recalculation maps the empty
list to itself. -/
theorem format_ranges_not_whole_buffer :
    sorterRanges (format (Globals.initial "LLVM")
        (library (resolveTo cppStyle) sortNothing keepRanges (engineTo [] true)) "int x;").calls =
      [[]] ∧
    sorterRanges (format (Globals.initial "LLVM")
        (library (resolveTo cppStyle) sortNothing keepRanges (engineTo [] true)) "int x;").calls ≠
      [[{ Offset := 0, Length := "int x;".length }]] ∧
    engineRanges (format (Globals.initial "LLVM")
        (library (resolveTo cppStyle) sortNothing keepRanges (engineTo [] true)) "int x;").calls =
      [[]] := by
  decide

/-- C7, amended: for every non-empty source whose style resolves, the range
list handed to the include sorter is the empty list (`Ranges` is declared on
line 77 and never filled), and, when R1 (with the JSON insertion when present)
applies, the list handed to the engine is the empty list recalculated through
that R1. -/
theorem format_ranges {R : Type} (G : Globals) (C : Collaborators R)
    (source : String) (Resolved : FormatStyle) (hne : source ≠ "")
    (hst : C.getStyle G.Style G.AssumeFileName G.FallbackStyle source = Except.ok Resolved) :
    sorterRanges (format G C source).calls = [[]] ∧
    ∀ ChangedCode : String,
      C.applyAllReplacements source
          (insertJsonShim C G.AssumeFileName (prepareStyle Resolved)
            (C.sortIncludes (prepareStyle Resolved) source [] G.AssumeFileName).1).1 =
        Except.ok ChangedCode →
      engineRanges (format G C source).calls =
        [C.calculateRangesAfterReplacements
          (insertJsonShim C G.AssumeFileName (prepareStyle Resolved)
            (C.sortIncludes (prepareStyle Resolved) source [] G.AssumeFileName).1).1 []] := by
  have hlen : source.length ≠ 0 := length_ne_zero_of_ne_empty source hne
  have hs := insertJsonShim_calls C G.AssumeFileName (prepareStyle Resolved)
    (C.sortIncludes (prepareStyle Resolved) source [] G.AssumeFileName).1
  constructor
  · simp only [format, hlen, hst, if_false]
    split
    · simp [sorterRanges_append, sorterRanges, hs.1]
    · split <;> simp [sorterRanges_append, sorterRanges, hs.1]
  · intro ChangedCode happ
    simp only [format, hlen, hst, happ, if_false]
    split <;> simp [engineRanges_append, engineRanges, hs.2]

/-- Witness for C7 amended: the sample JSON text, where R1 is the JSON insertion
alone and the recalculation hands the empty list on. -/
theorem format_ranges_witness :
    sorterRanges (format (Globals.initial "LLVM")
        (library (resolveTo jsonStyle) sortNothing keepRanges (engineTo [] true)) sampleJson).calls =
      [[]] ∧
    engineRanges (format (Globals.initial "LLVM")
        (library (resolveTo jsonStyle) sortNothing keepRanges (engineTo [] true)) sampleJson).calls =
      [keepRanges [jsonShim "<stdin>"] []] :=
  ⟨(format_ranges (Globals.initial "LLVM")
      (library (resolveTo jsonStyle) sortNothing keepRanges (engineTo [] true)) sampleJson
      jsonStyle (by decide) rfl).1,
   (format_ranges (Globals.initial "LLVM")
      (library (resolveTo jsonStyle) sortNothing keepRanges (engineTo [] true)) sampleJson
      jsonStyle (by decide) rfl).2 "x = \x7b\"a\": 1\x7d" rfl⟩

/-- C3 (over the modelled replacement sets): for every non-empty source on
which every stage succeeds - the style resolves, R1 (the include sorter's set
after the JSON block) applies to the source and gives `mid`, the engine's set
R2 for `mid` applies to `mid` and gives `out`, and `createFile` hands back the
bytes of the source - `format` returns `out`, and `out` is also what the merged
set gives on the original source. -/
theorem format_merge_composition (G : Globals) (Disk : FileSystem)
    (getStyle : String → String → String → String → Except String FormatStyle)
    (sortIncludes : FormatStyle → String → List Range → String → Replacements × Nat)
    (calculateRanges : Replacements → List Range → List Range)
    (reformat : FormatStyle → String → List Range → String → Replacements × FormattingAttemptStatus)
    (source mid out : String) (Resolved : FormatStyle)
    (hne : source ≠ "")
    (hst : getStyle G.Style G.AssumeFileName G.FallbackStyle source = Except.ok Resolved)
    (h1 : applyAll source
      (firstSet G (libraryOn Disk getStyle sortIncludes calculateRanges reformat) source
        Resolved) = Except.ok mid)
    (h2 : applyAll mid
      (secondSet G (libraryOn Disk getStyle sortIncludes calculateRanges reformat) source
        Resolved mid) = Except.ok out)
    (hfile : createFile (libraryOn Disk getStyle sortIncludes calculateRanges reformat)
      G.AssumeFileName source = some source) :
    (format G (libraryOn Disk getStyle sortIncludes calculateRanges reformat) source).result =
      out ∧
    applyAll source
      (mergeReplacements
        (firstSet G (libraryOn Disk getStyle sortIncludes calculateRanges reformat) source
          Resolved)
        (secondSet G (libraryOn Disk getStyle sortIncludes calculateRanges reformat) source
          Resolved mid)) =
      Except.ok out := by
  have hm := applyFrom_merge _ _ _ _ _ (applyAll_ok _ _ _ h1) (applyAll_ok _ _ _ h2)
  constructor
  · rw [format_library_result G Disk getStyle sortIncludes calculateRanges reformat source mid
      out Resolved hne hst h1 h2 hfile]
  · simpa using applyAll_of_applyFrom _ _ _ hm

/-- Witness for C3: the sorter deletes a repeated include line, which moves the
rest of the text down by 13 bytes, and the engine removes a doubled blank at
offset 16 of the text after sorting (offset 29 of the source); the merged set
is written against the source. -/
theorem format_merge_composition_witness :
    ((format (Globals.initial "LLVM")
        (libraryOn scratchDisk (resolveTo cppStyle) (sortTo sampleSorted) keepRanges
          (engineTo sampleFormatted true)) sampleCpp).result =
      "#include <a>\nint x;" ∧
    applyAll sampleCpp (mergeReplacements sampleSorted sampleFormatted) =
      Except.ok "#include <a>\nint x;") ∧
    mergeReplacements sampleSorted sampleFormatted =
      [{ FilePath := "<stdin>", Offset := 13, Length := 13, ReplacementText := "" },
       { FilePath := "<stdin>", Offset := 29, Length := 2, ReplacementText := " " }] :=
  ⟨format_merge_composition (Globals.initial "LLVM") scratchDisk (resolveTo cppStyle)
    (sortTo sampleSorted) keepRanges (engineTo sampleFormatted true) sampleCpp
    "#include <a>\nint  x;" "#include <a>\nint x;" cppStyle (by decide) rfl rfl rfl rfl,
   by decide⟩

end ClangFormat
